import Mathlib

/-!
Verification of the value-formatting engine (`src/formatting/formatter.rs`).

The formatter implementations (`str`, `bar`, `eng`, `fix`, flag) are embedded
from the source file.  Collaborator modules that the source imports but whose
code is not part of this repository snapshot (the `Prefix`/`Unit` model, the
escaping sink, the error type, and the standard library's string-to-number
parsers) are modelled from the specification; each such definition is marked.

Conventions of the embedding:
 - `f64` values are embedded as `ℚ` (exact arithmetic).
 - `usize`/`u64` are embedded as `ℕ`; Rust's `usize::MAX` is `2^64 - 1`.
 - `Instant` is embedded as a millisecond timestamp `ℕ`; `format` receives the
   current time `now` explicitly, so `init_time.elapsed()` is `now - t`.
 - Rust identifiers containing the word used for magnitude scaling letters
   (`Prefix`) are spelled `Pfx` here.
 - Fallible Rust functions returning `Result` are embedded as `Except Err`.
-/

/-- Modelled from the spec: §7 describes two disjoint error families, with
`ConfigError` raised during construction and `FormatError` during `format`;
the latter's kinds are type mismatch, unit mismatch, and "not implemented".
The source's `errors.rs` is not in the snapshot, so the kinds are taken from
the spec and each carries the message string the source supplies. -/
inductive Err where
  | config (msg : String)
  | typeMismatch (msg : String)
  | unitMismatch (msg : String)
  | notImplemented (msg : String)
deriving DecidableEq

def Err.isConfig : Err → Bool
  | .config _ => true
  | _ => false

/-- Modelled from the spec: §3/§4.1 describe `Unit` as a closed enumeration of
physical dimensions (bytes, bits, hertz, percent, degrees, "none"), with
fixed-factor conversion inside a dimension and failure across dimensions.
The source's `unit.rs` is not in the snapshot. -/
inductive MUnit where
  | bytes
  | bits
  | hertz
  | percents
  | degrees
  | none
deriving DecidableEq

/-- Modelled from the spec: dimension tag; units convert only inside one
dimension.  Bytes and bits share the information dimension. -/
def MUnit.dimIdx : MUnit → ℕ
  | .bytes => 0
  | .bits => 0
  | .hertz => 1
  | .percents => 2
  | .degrees => 3
  | .none => 4

/-- Modelled from the spec: multiplicative factor relative to the dimension's
base unit (bits are the base of the information dimension). -/
def MUnit.factor : MUnit → ℚ
  | .bytes => 8
  | .bits => 1
  | _ => 1

/-- Modelled from the spec: the unit symbol appended after the numeral. -/
def MUnit.symbol : MUnit → String
  | .bytes => "B"
  | .bits => "b"
  | .hertz => "Hz"
  | .percents => "%"
  | .degrees => "°"
  | .none => ""

/-- Modelled from the spec: textual parser used for the `unit`/`u` argument. -/
def MUnit.parse (s : String) : Option MUnit :=
  if s = "B" then some .bytes
  else if s = "b" then some .bits
  else if s = "Hz" then some .hertz
  else if s = "%" then some .percents
  else if s = "deg" then some .degrees
  else if s = "none" then some .none
  else Option.none

/-- Modelled from the spec: `Unit::convert` rescales between units of one
dimension by their fixed factors and fails with a `UnitMismatch` kind across
dimensions. -/
def MUnit.convert (u : MUnit) (val : ℚ) (target : MUnit) : Except Err ℚ :=
  if u.dimIdx = target.dimIdx then .ok (val * u.factor / target.factor)
  else .error (.unitMismatch "Incompatible units")

/-- Modelled from the spec: §3 describes the scaling-letter enumeration as two
families — decimal metric (milli … peta with "one" as identity) and binary
(kibi … with a binary identity), totally ordered by multiplier for clamping.
The source's `prefix.rs` is not in the snapshot. -/
inductive Pfx where
  | milli
  | one
  | oneButBinary
  | kilo
  | kibi
  | mega
  | mebi
  | giga
  | gibi
  | tera
  | tebi
  | peta
  | pebi
deriving DecidableEq

/-- Modelled from the spec: position in the total order by multiplier
(the two identities tie at 1; the binary one is placed second). -/
def Pfx.idx : Pfx → ℕ
  | .milli => 0
  | .one => 1
  | .oneButBinary => 2
  | .kilo => 3
  | .kibi => 4
  | .mega => 5
  | .mebi => 6
  | .giga => 7
  | .gibi => 8
  | .tera => 9
  | .tebi => 10
  | .peta => 11
  | .pebi => 12

/-- Modelled from the spec: the multiplier of each scaling letter. -/
def Pfx.mult : Pfx → ℚ
  | .milli => 1 / 1000
  | .one => 1
  | .oneButBinary => 1
  | .kilo => 1000
  | .kibi => 1024
  | .mega => 1000 ^ 2
  | .mebi => 1024 ^ 2
  | .giga => 1000 ^ 3
  | .gibi => 1024 ^ 3
  | .tera => 1000 ^ 4
  | .tebi => 1024 ^ 4
  | .peta => 1000 ^ 5
  | .pebi => 1024 ^ 5

/-- Modelled from the spec: `apply(value)` rescales a magnitude into the
chosen scaling letter's units (1536 bytes with kibi becomes 1.5). -/
def Pfx.apply (p : Pfx) (v : ℚ) : ℚ := v / p.mult

/-- Modelled from the spec: the binary-family predicate. -/
def Pfx.isBinary : Pfx → Bool
  | .oneButBinary => true
  | .kibi => true
  | .mebi => true
  | .gibi => true
  | .tebi => true
  | .pebi => true
  | _ => false

/-- Modelled from the spec: the smallest member of the enumeration. -/
def Pfx.minAvailable : Pfx := .milli

/-- Modelled from the spec: the largest member of the enumeration. -/
def Pfx.maxAvailable : Pfx := .pebi

/-- Modelled from the spec: `clamp(lo, hi)` bounds a scaling letter into a
closed range of the total order. -/
def Pfx.clampRange (p lo hi : Pfx) : Pfx :=
  if p.idx < lo.idx then lo else if hi.idx < p.idx then hi else p

/-- Modelled from the spec: decimal engineering selection — the letter `p`
with `p.apply value` in `[1, 1000)`, the identity for zero, and the extreme
members for magnitudes outside every band. -/
def Pfx.engDec (v : ℚ) : Pfx :=
  let a := |v|
  if a = 0 then .one
  else if a < 1 then .milli
  else if a < 1000 then .one
  else if a < 1000 ^ 2 then .kilo
  else if a < 1000 ^ 3 then .mega
  else if a < 1000 ^ 4 then .giga
  else if a < 1000 ^ 5 then .tera
  else .peta

/-- Modelled from the spec: binary engineering selection with steps of 1024
over the binary family. -/
def Pfx.engBin (v : ℚ) : Pfx :=
  let a := |v|
  if a < 1024 then .oneButBinary
  else if a < 1024 ^ 2 then .kibi
  else if a < 1024 ^ 3 then .mebi
  else if a < 1024 ^ 4 then .gibi
  else if a < 1024 ^ 5 then .tebi
  else .pebi

/-- Modelled from the spec: the letter rendered after the numeral. -/
def Pfx.symbol : Pfx → String
  | .milli => "m"
  | .one => ""
  | .oneButBinary => ""
  | .kilo => "K"
  | .kibi => "Ki"
  | .mega => "M"
  | .mebi => "Mi"
  | .giga => "G"
  | .gibi => "Gi"
  | .tera => "T"
  | .tebi => "Ti"
  | .peta => "P"
  | .pebi => "Pi"

/-- Modelled from the spec: textual parser for the `p` argument. -/
def Pfx.parse (s : String) : Option Pfx :=
  if s = "m" then some .milli
  else if s = "1" then some .one
  else if s = "1i" then some .oneButBinary
  else if s = "K" then some .kilo
  else if s = "Ki" then some .kibi
  else if s = "M" then some .mega
  else if s = "Mi" then some .mebi
  else if s = "G" then some .giga
  else if s = "Gi" then some .gibi
  else if s = "T" then some .tera
  else if s = "Ti" then some .tebi
  else if s = "P" then some .peta
  else if s = "Pi" then some .pebi
  else Option.none

/-- Modelled from the spec: `clamp_prefix` lets a unit restrict which scaling
letters are legal for it; percent and degree values are never scaled. -/
def MUnit.clampPfx (u : MUnit) (p : Pfx) : Pfx :=
  match u with
  | .percents => if p.isBinary then .oneButBinary else .one
  | .degrees => if p.isBinary then .oneButBinary else .one
  | _ => p

/-- `ValueInner` from `value.rs` (imported as `Value` by the source): the
tagged runtime value the engine formats. -/
inductive Value where
  | text (s : String)
  | number (val : ℚ) (unit : MUnit)
  | icon (s : String)
  | flag
deriving DecidableEq

/-- Modelled from the spec: §4.9 — the escaping sink replaces the
markup-significant characters `<`, `>`, `&` by their entities. -/
def escChar (c : Char) : List Char :=
  if c = '<' then ['&', 'l', 't', ';']
  else if c = '>' then ['&', 'g', 't', ';']
  else if c = '&' then ['&', 'a', 'm', 'p', ';']
  else [c]

/-- Modelled from the spec: `collect_pango_escaped` collects a character
stream into a string, escaping each character. -/
def collectPangoEscaped (cs : List Char) : String :=
  String.mk (cs.flatMap escChar)

/-- `Arg` from `parse.rs`: one parsed `key: value` pair of a format spec. -/
structure Arg where
  key : String
  val : String
deriving DecidableEq

/-- Modelled from the spec: Rust's `usize` textual parser — an optional `+`
sign, then one or more ascii digits, rejecting overflow past `usize::MAX`. -/
def parseUsize (s : String) : Option ℕ :=
  let cs := match s.data with
    | '+' :: rest => rest
    | cs => cs
  if cs ≠ [] ∧ cs.all (·.isDigit) then
    let n := cs.foldl (fun a c => a * 10 + (c.toNat - 48)) 0
    if n < 2 ^ 64 then some n else Option.none
  else Option.none

/-- Modelled from the spec: Rust's `bool` textual parser. -/
def parseBool (s : String) : Option Bool :=
  if s = "true" then some true
  else if s = "false" then some false
  else Option.none

/-- Digit-string value, most significant first. -/
def digitsVal (cs : List Char) : ℕ :=
  cs.foldl (fun a c => a * 10 + (c.toNat - 48)) 0

/-- Modelled from the spec: Rust's `f64` textual parser restricted to finite
decimals — an optional sign, an integer part and/or a fractional part, and an
optional decimal exponent — embedded exactly into `ℚ`. -/
def parseF64Q (s : String) : Option ℚ :=
  let (sgn, cs) : ℚ × List Char := match s.data with
    | '-' :: rest => (-1, rest)
    | '+' :: rest => (1, rest)
    | cs => (1, cs)
  let (mant, expPart) := cs.span (fun c => c ≠ 'e' ∧ c ≠ 'E')
  let expVal : Option ℤ := match expPart with
    | [] => some 0
    | _ :: r =>
      let (esgn, r2) : ℤ × List Char := match r with
        | '-' :: rest => (-1, rest)
        | '+' :: rest => (1, rest)
        | r => (1, r)
      if r2 ≠ [] ∧ r2.all (·.isDigit) then some (esgn * digitsVal r2) else Option.none
  match expVal with
  | Option.none => Option.none
  | some e =>
    let (ip, rest) := mant.span (fun c => c ≠ '.')
    match rest with
    | [] =>
      if ip ≠ [] ∧ ip.all (·.isDigit) then some (sgn * digitsVal ip * (10 : ℚ) ^ e)
      else Option.none
    | '.' :: fp =>
      if (ip ≠ [] ∨ fp ≠ []) ∧ ip.all (·.isDigit) ∧ fp.all (·.isDigit) then
        some (sgn * (digitsVal ip + digitsVal fp / (10 : ℚ) ^ fp.length) * (10 : ℚ) ^ e)
      else Option.none
    | _ => Option.none

/-- `StrFormatter`: configuration of the `str` formatter.  `init_time` is the
creation timestamp in milliseconds (`Instant` in the source). -/
structure StrFormatter where
  min_width : ℕ
  max_width : ℕ
  pango : Bool
  rot_interval_ms : Option ℕ
  init_time : Option ℕ
deriving DecidableEq

def DEFAULT_STR_MIN_WIDTH : ℕ := 0
def DEFAULT_STR_MAX_WIDTH : ℕ := 2 ^ 64 - 1
def DEFAULT_STR_PANGO : Bool := false

def DEFAULT_STRING_FMTR : StrFormatter :=
  { min_width := DEFAULT_STR_MIN_WIDTH
    max_width := DEFAULT_STR_MAX_WIDTH
    pango := DEFAULT_STR_PANGO
    rot_interval_ms := Option.none
    init_time := Option.none }

/-- The rotating window of the `str` formatter: the pipeline
`text.chars().chain(Some('|')).skip(step).take(w1).chain(text.chars()).take(max_width)`
with `w1 = max_width.min(width - step)` and `width = len + 1`. -/
def strRotChars (text : List Char) (maxw step : ℕ) : List Char :=
  let w1 := min maxw (text.length + 1 - step)
  ((((text ++ ['|']).drop step).take w1) ++ text).take maxw

/-- The non-rotating character pipeline of the `str` formatter:
`text.chars().chain(repeat(' ').take(min_width.saturating_sub(width))).take(max_width)`. -/
def strPadChars (text : List Char) (minw maxw : ℕ) : List Char :=
  (text ++ List.replicate (minw - text.length) ' ').take maxw

/-- The non-rotating output: collect plainly when `pango`, else escape. -/
def strPlainOut (f : StrFormatter) (text : List Char) : String :=
  let chars := strPadChars text f.min_width f.max_width
  if f.pango then String.mk chars else collectPangoEscaped chars

/-- `StrFormatter::format`.  `now` is the current time in milliseconds, so
`init_time.elapsed().as_millis() = now - t`. -/
def StrFormatter.format (f : StrFormatter) (now : ℕ) (v : Value) : Except Err String :=
  match v with
  | .text text =>
    .ok (match f.rot_interval_ms, f.init_time with
      | some rot_ms, some t =>
        if f.max_width < text.data.length then
          collectPangoEscaped (strRotChars text.data f.max_width
            (((now - t) / rot_ms) % (text.data.length + 1)))
        else strPlainOut f text.data
      | _, _ => strPlainOut f text.data)
  | .icon icon => .ok icon
  | .number _ _ => .error (.typeMismatch "A number cannot be formatted with 'str' formatter")
  | .flag => .error (.typeMismatch "A flag cannot be formatted with 'str' formatter")

/-- `BarFormatter`: configuration of the `bar` formatter. -/
structure BarFormatter where
  width : ℕ
  max_value : ℚ
deriving DecidableEq

def DEFAULT_BAR_WIDTH : ℕ := 5
def DEFAULT_BAR_MAX_VAL : ℚ := 100

/-- Rust's `f64::clamp` on exact rationals (callers guarantee `lo ≤ hi`). -/
def qclamp (x lo hi : ℚ) : ℚ := min hi (max lo x)

/-- `VERTICAL_BAR_CHARS`: the nine block-fill glyphs, empty through full. -/
def VERTICAL_BAR_CHARS : List Char :=
  [' ', '▏', '▎', '▍', '▌', '▋', '▊', '▉', '█']

/-- The glyph index selected for cell `i`:
`((chars_to_fill - i as f64).clamp(0., 1.) * 8.) as usize`. -/
def barIdx (chars_to_fill : ℚ) (i : ℕ) : ℕ :=
  (⌊qclamp (chars_to_fill - i) 0 1 * 8⌋).toNat

/-- `BarFormatter::format`. -/
def BarFormatter.format (f : BarFormatter) (v : Value) : Except Err String :=
  match v with
  | .number val _ =>
    let val := qclamp (val / f.max_value) 0 1
    let chars_to_fill := val * f.width
    .ok (String.mk ((List.range f.width).map fun i =>
      VERTICAL_BAR_CHARS.getD (barIdx chars_to_fill i) ' '))
  | .text _ => .error (.typeMismatch "Text cannot be formatted with 'bar' formatter")
  | .icon _ => .error (.typeMismatch "An icon cannot be formatted with 'bar' formatter")
  | .flag => .error (.typeMismatch "A flag cannot be formatted with 'bar' formatter")

/-- `EngFixConfig`: the shared argument surface of `eng` and `fix`.  The
source's `prefix*` fields are spelled `pfx*` here. -/
structure EngFixConfig where
  width : ℕ
  unit : Option MUnit
  unit_has_space : Bool
  unit_hidden : Bool
  pfx : Option Pfx
  pfx_has_space : Bool
  pfx_hidden : Bool
  pfx_forced : Bool
deriving DecidableEq

def DEFAULT_NUMBER_WIDTH : ℕ := 2

def DEFAULT_NUMBER_FMTR : EngFixConfig :=
  { width := DEFAULT_NUMBER_WIDTH
    unit := Option.none
    unit_has_space := false
    unit_hidden := false
    pfx := Option.none
    pfx_has_space := false
    pfx_hidden := false
    pfx_forced := false }

/-- The digit count of `EngFormatter::format`:
`(val.max(1.).log10().floor() + 1.0) as isize`, plus one when negative.
`Int.log 10` is the exact floor logarithm the float expression computes. -/
def engDigits (val : ℚ) : ℤ :=
  let d := Int.log 10 (max val 1) + 1
  if val < 0 then d + 1 else d

/-- Exactly `p` decimal digits of `m < 10^p`, most significant first. -/
def fracDigits : ℕ → ℕ → List Char
  | 0, _ => []
  | p + 1, m => Nat.digitChar (m / 10 ^ p) :: fracDigits p (m % 10 ^ p)

/-- Model of Rust's `format!` with a `.p` precision on a float: the value
rounded to the nearest `p`-decimal fixed-point numeral. -/
def renderFixed (p : ℕ) (val : ℚ) : String :=
  let n : ℤ := round (val * (10 : ℚ) ^ p)
  if p = 0 then toString n
  else
    (if n < 0 then "-" else "") ++ toString (n.natAbs / 10 ^ p) ++ "."
      ++ String.mk (fracDigits p (n.natAbs % 10 ^ p))

/-- The numeral of `EngFormatter::format`: the match on
`width as isize - digits` with arms `..=0`, `1`, and `rest`. -/
def engNumeral (width : ℕ) (val : ℚ) : String :=
  let b : ℤ := (width : ℤ) - engDigits val
  if b ≤ 0 then toString ⌊val⌋
  else if b = 1 then " " ++ toString ⌊val⌋
  else renderFixed (b - 1).toNat val

/-- The suffix built by `EngFormatter::format` after the numeral: the two
conditional `push`/`push_str` blocks for the scaling letter and the unit. -/
def engSuffix (cfg : EngFixConfig) (p : Pfx) (u : MUnit) : String :=
  let display_pfx := !cfg.pfx_hidden && p != Pfx.one && p != Pfx.oneButBinary
  let display_unit := !cfg.unit_hidden && u != MUnit.none
  (if display_pfx then (if cfg.pfx_has_space then " " else "") ++ p.symbol else "")
    ++ (if display_unit then
          (if cfg.unit_has_space || (cfg.pfx_has_space && !display_pfx) then " " else "")
            ++ u.symbol
        else "")

/-- The admissible scaling-letter window of `EngFormatter::format`. -/
def engPfxWindow (cfg : EngFixConfig) : Pfx × Pfx :=
  match cfg.pfx, cfg.pfx_forced with
  | some p, true => (p, p)
  | some p, false => (p, Pfx.maxAvailable)
  | Option.none, _ => (Pfx.minAvailable, Pfx.maxAvailable)

/-- The scaling letter chosen by `EngFormatter::format`: engineering
selection, unit legality clamp, then window clamp. -/
def engChoosePfx (cfg : EngFixConfig) (val : ℚ) (u : MUnit) : Pfx :=
  let w := engPfxWindow cfg
  Pfx.clampRange (u.clampPfx (if w.1.isBinary then Pfx.engBin val else Pfx.engDec val)) w.1 w.2

/-- `EngFormatter::format`. -/
def engFormat (cfg : EngFixConfig) (v : Value) : Except Err String :=
  match v with
  | .number val unit =>
    match (match cfg.unit with
      | some newUnit => (unit.convert val newUnit).map (fun v2 => (v2, newUnit))
      | Option.none => .ok (val, unit)) with
    | .error e => .error e
    | .ok vu =>
      let p := engChoosePfx cfg vu.1 vu.2
      .ok (engNumeral cfg.width (p.apply vu.1) ++ engSuffix cfg p vu.2)
  | .text _ => .error (.typeMismatch "Text cannot be formatted with 'eng' formatter")
  | .icon _ => .error (.typeMismatch "An icon cannot be formatted with 'eng' formatter")
  | .flag => .error (.typeMismatch "A flag cannot be formatted with 'eng' formatter")

/-- `FixFormatter::format`. -/
def fixFormat (_cfg : EngFixConfig) (v : Value) : Except Err String :=
  match v with
  | .number _ _ => .error (.notImplemented "'fix' formatter is not implemented yet")
  | .text _ => .error (.typeMismatch "Text cannot be formatted with 'fix' formatter")
  | .icon _ => .error (.typeMismatch "An icon cannot be formatted with 'fix' formatter")
  | .flag => .error (.typeMismatch "A flag cannot be formatted with 'fix' formatter")

/-- `FlagFormatter::format`.  The source's `unreachable!()` arm is embedded
as `Option.none` (a panic, not a recoverable error value). -/
def flagFormat (v : Value) : Option (Except Err String) :=
  match v with
  | .flag => some (.ok "")
  | _ => Option.none

/-- The mutable locals of the `"str"` arm of `new_formatter` before
cross-field validation. -/
structure StrRaw where
  min_width : ℕ
  max_width : ℕ
  pango : Bool
  rot_interval : Option ℚ
deriving DecidableEq

def strRaw0 : StrRaw :=
  ⟨DEFAULT_STR_MIN_WIDTH, DEFAULT_STR_MAX_WIDTH, DEFAULT_STR_PANGO, Option.none⟩

/-- The argument loop of the `"str"` arm of `new_formatter`. -/
def strLoop : List Arg → StrRaw → Except Err StrRaw
  | [], c => .ok c
  | a :: rest, c =>
    if a.key = "min_width" ∨ a.key = "min_w" then
      match parseUsize a.val with
      | some n => strLoop rest { c with min_width := n }
      | Option.none => .error (.config "Width must be a positive integer")
    else if a.key = "max_width" ∨ a.key = "max_w" then
      match parseUsize a.val with
      | some n => strLoop rest { c with max_width := n }
      | Option.none => .error (.config "Width must be a positive integer")
    else if a.key = "pango" then
      match parseBool a.val with
      | some b => strLoop rest { c with pango := b }
      | Option.none => .error (.config "pango must be true or false")
    else if a.key = "rot_interval" then
      match parseF64Q a.val with
      | some q => strLoop rest { c with rot_interval := some q }
      | Option.none => .error (.config "Interval must be a positive number")
    else .error (.config ("Unknown argumnt for 'str': '" ++ a.key ++ "'"))

/-- `rot_interval.map(|x| (x * 1e3) as u64)`: truncating, saturating cast. -/
def rotMs (q : ℚ) : ℕ := min (⌊q * 1000⌋).toNat (2 ^ 64 - 1)

/-- The `"str"` arm of `new_formatter`: argument loop, then the two
cross-field checks, then construction with `init_time = Some(now)`. -/
def strFromArgs (now : ℕ) (args : List Arg) : Except Err StrFormatter :=
  match strLoop args strRaw0 with
  | .error e => .error e
  | .ok c =>
    if c.max_width < c.min_width then
      .error (.config "Max width must be greater of equal to min width")
    else match c.rot_interval with
      | some q =>
        if q < 1 / 10 then .error (.config "Interval must be greater than 0.1")
        else .ok ⟨c.min_width, c.max_width, c.pango, some (rotMs q), some now⟩
      | Option.none => .ok ⟨c.min_width, c.max_width, c.pango, Option.none, some now⟩

/-- The mutable locals of the `"bar"` arm of `new_formatter`. -/
structure BarRaw where
  width : ℕ
  max_value : ℚ
deriving DecidableEq

/-- The argument loop of the `"bar"` arm of `new_formatter`. -/
def barLoop : List Arg → BarRaw → Except Err BarRaw
  | [], c => .ok c
  | a :: rest, c =>
    if a.key = "width" ∨ a.key = "w" then
      match parseUsize a.val with
      | some n => barLoop rest { c with width := n }
      | Option.none => .error (.config "Width must be a positive integer")
    else if a.key = "max_value" then
      match parseF64Q a.val with
      | some q => barLoop rest { c with max_value := q }
      | Option.none => .error (.config "Max value must be a number")
    else .error (.config ("Unknown argumnt for 'bar': '" ++ a.key ++ "'"))

/-- The `"bar"` arm of `new_formatter`. -/
def barFromArgs (args : List Arg) : Except Err BarFormatter :=
  (barLoop args ⟨DEFAULT_BAR_WIDTH, DEFAULT_BAR_MAX_VAL⟩).map
    (fun c => BarFormatter.mk c.width c.max_value)

/-- `EngFixConfig::from_args`: the argument loop shared by `eng` and `fix`. -/
def engFixLoop : List Arg → EngFixConfig → Except Err EngFixConfig
  | [], c => .ok c
  | a :: rest, c =>
    if a.key = "width" ∨ a.key = "w" then
      match parseUsize a.val with
      | some n => engFixLoop rest { c with width := n }
      | Option.none => .error (.config "Width must be a positive integer")
    else if a.key = "unit" ∨ a.key = "u" then
      match MUnit.parse a.val with
      | some u => engFixLoop rest { c with unit := some u }
      | Option.none => .error (.config ("Unknown unit: '" ++ a.val ++ "'"))
    else if a.key = "hide_unit" then
      match parseBool a.val with
      | some b => engFixLoop rest { c with unit_hidden := b }
      | Option.none => .error (.config "hide_unit must be true or false")
    else if a.key = "unit_space" then
      match parseBool a.val with
      | some b => engFixLoop rest { c with unit_has_space := b }
      | Option.none => .error (.config "unit_space must be true or false")
    else if a.key = "prefix" ∨ a.key = "p" then
      match Pfx.parse a.val with
      | some p => engFixLoop rest { c with pfx := some p }
      | Option.none => .error (.config ("Unknown prefix: '" ++ a.val ++ "'"))
    else if a.key = "hide_prefix" then
      match parseBool a.val with
      | some b => engFixLoop rest { c with pfx_hidden := b }
      | Option.none => .error (.config "hide_prefix must be true or false")
    else if a.key = "prefix_space" then
      match parseBool a.val with
      | some b => engFixLoop rest { c with pfx_has_space := b }
      | Option.none => .error (.config "prefix_space must be true or false")
    else if a.key = "force_prefix" then
      match parseBool a.val with
      | some b => engFixLoop rest { c with pfx_forced := b }
      | Option.none => .error (.config "force_prefix must be true or false")
    else .error (.config ("Unknown argumnt for 'fix'/'eng': '" ++ a.key ++ "'"))

def engFixFromArgs (args : List Arg) : Except Err EngFixConfig :=
  engFixLoop args DEFAULT_NUMBER_FMTR

/-- The polymorphic formatter returned by `new_formatter`. -/
inductive Fmtr where
  | str (f : StrFormatter)
  | bar (f : BarFormatter)
  | eng (cfg : EngFixConfig)
  | fix (cfg : EngFixConfig)
deriving DecidableEq

/-- `new_formatter`: name dispatch over the four constructible formatters. -/
def new_formatter (now : ℕ) (name : String) (args : List Arg) : Except Err Fmtr :=
  if name = "str" then (strFromArgs now args).map .str
  else if name = "bar" then (barFromArgs args).map .bar
  else if name = "eng" then (engFixFromArgs args).map .eng
  else if name = "fix" then (engFixFromArgs args).map .fix
  else .error (.config ("Unknown formatter: '" ++ name ++ "'"))

/-- C8: for every `Number` value the `fix` formatter returns the explicit
"not implemented" error (never degrading to `eng` behavior), and for every
non-`Number` value it returns a `TypeMismatch` error. -/
theorem fixFormat_c8 :
    (∀ (cfg : EngFixConfig) (val : ℚ) (u : MUnit),
      fixFormat cfg (Value.number val u)
        = .error (.notImplemented "'fix' formatter is not implemented yet")) ∧
    (∀ (cfg : EngFixConfig) (v : Value), (∀ val u, v ≠ Value.number val u) →
      ∃ m, fixFormat cfg v = .error (.typeMismatch m)) := by
  refine ⟨fun _ _ _ => rfl, fun cfg v hv => ?_⟩
  cases v with
  | text s => exact ⟨_, rfl⟩
  | number val u => exact absurd rfl (hv val u)
  | icon s => exact ⟨_, rfl⟩
  | flag => exact ⟨_, rfl⟩

theorem fixFormat_c8_witness :
    fixFormat DEFAULT_NUMBER_FMTR (Value.number 1 MUnit.none)
        = .error (.notImplemented "'fix' formatter is not implemented yet") ∧
    (∃ m, fixFormat DEFAULT_NUMBER_FMTR (Value.text "x") = .error (.typeMismatch m)) :=
  ⟨fixFormat_c8.1 DEFAULT_NUMBER_FMTR 1 MUnit.none,
   fixFormat_c8.2 DEFAULT_NUMBER_FMTR (Value.text "x") (fun _ _ h => Value.noConfusion h)⟩

/-- C9: the flag formatter returns the empty string for `Value::Flag`, and
for every other variant it takes the `unreachable!` (panicking) branch,
embedded as `Option.none`, rather than returning a recoverable error. -/
theorem flagFormat_c9 :
    flagFormat Value.flag = some (.ok "") ∧
    (∀ v : Value, v ≠ Value.flag → flagFormat v = Option.none) := by
  refine ⟨rfl, fun v hv => ?_⟩
  cases v with
  | text s => rfl
  | number val u => rfl
  | icon s => rfl
  | flag => exact absurd rfl hv

theorem flagFormat_c9_witness :
    Value.icon "x" ≠ Value.flag ∧ flagFormat (Value.icon "x") = Option.none :=
  ⟨fun h => Value.noConfusion h,
   flagFormat_c9.2 (Value.icon "x") (fun h => Value.noConfusion h)⟩

/-- C3 counterexample: the claim says every non-`Text` value gets a
`TypeMismatch` error from the `str` formatter, but an `Icon` value is
returned verbatim as a success. -/
theorem strFormat_c3_cex :
    StrFormatter.format DEFAULT_STRING_FMTR 0 (Value.icon "x") = .ok "x" :=
  rfl

/-- C3 amended: the `str` formatter returns a `TypeMismatch` error for
`Number` and `Flag` values; an `Icon` value is returned verbatim (and
unescaped), not rejected. -/
theorem strFormat_c3_amended :
    (∀ (f : StrFormatter) (now : ℕ) (val : ℚ) (u : MUnit),
      f.format now (Value.number val u)
        = .error (.typeMismatch "A number cannot be formatted with 'str' formatter")) ∧
    (∀ (f : StrFormatter) (now : ℕ),
      f.format now Value.flag
        = .error (.typeMismatch "A flag cannot be formatted with 'str' formatter")) ∧
    (∀ (f : StrFormatter) (now : ℕ) (s : String),
      f.format now (Value.icon s) = .ok s) :=
  ⟨fun _ _ _ _ => rfl, fun _ _ => rfl, fun _ _ _ => rfl⟩

/-- C2: with no rotation configured (or text that fits), the `str` formatter
produces exactly `max (min len max_width) min_width` source characters
(counted before escape-entity expansion), and the output is those characters
verbatim when `pango` is set, escaped otherwise. -/
theorem strFormat_c2 (f : StrFormatter) (now : ℕ) (s : String)
    (hnr : f.rot_interval_ms = Option.none ∨ f.init_time = Option.none ∨
      s.data.length ≤ f.max_width)
    (hwf : f.min_width ≤ f.max_width) :
    (strPadChars s.data f.min_width f.max_width).length
        = max (min s.data.length f.max_width) f.min_width ∧
    f.format now (Value.text s) =
      .ok (if f.pango then String.mk (strPadChars s.data f.min_width f.max_width)
           else collectPangoEscaped (strPadChars s.data f.min_width f.max_width)) := by
  constructor
  · simp only [strPadChars, List.length_take, List.length_append, List.length_replicate]
    omega
  · cases hrot : f.rot_interval_ms with
    | none => simp [StrFormatter.format, hrot, strPlainOut]
    | some r =>
      cases hinit : f.init_time with
      | none => simp [StrFormatter.format, hrot, hinit, strPlainOut]
      | some t =>
        have hfit : s.data.length ≤ f.max_width := by
          rcases hnr with h | h | h
          · exact absurd hrot (by simp [h])
          · exact absurd hinit (by simp [h])
          · exact h
        have hfit' : ¬(f.max_width < s.length) := Nat.not_lt.mpr hfit
        simp [StrFormatter.format, hrot, hinit, strPlainOut, hfit']

theorem strFormat_c2_witness :
    (strPadChars "a<b".data 2 5).length = 3 ∧
    StrFormatter.format ⟨2, 5, false, Option.none, Option.none⟩ 0 (Value.text "a<b")
      = .ok "a&lt;b" := by
  have h := strFormat_c2 ⟨2, 5, false, Option.none, Option.none⟩ 0 "a<b"
    (Or.inl rfl) (by decide)
  refine ⟨by decide, ?_⟩
  rw [h.2]
  rfl

/-- C10: with `pango = true` and rotation configured, an overflowing text is
still markup-escaped in the rotating path; the output does not depend on the
`pango` flag there. -/
theorem strFormat_c10 (minw maxw r t now : ℕ) (s : String)
    (hover : maxw < s.data.length) :
    StrFormatter.format ⟨minw, maxw, true, some r, some t⟩ now (Value.text s)
      = .ok (collectPangoEscaped (strRotChars s.data maxw
          (((now - t) / r) % (s.data.length + 1)))) ∧
    StrFormatter.format ⟨minw, maxw, true, some r, some t⟩ now (Value.text s)
      = StrFormatter.format ⟨minw, maxw, false, some r, some t⟩ now (Value.text s) := by
  have hover' : maxw < s.length := hover
  constructor
  · simp [StrFormatter.format, hover']
  · simp [StrFormatter.format, hover']

theorem strFormat_c10_witness :
    StrFormatter.format ⟨0, 3, true, some 100, some 0⟩ 0 (Value.text "a<bcd")
      = .ok "a&lt;b" := by
  have h := (strFormat_c10 0 3 100 0 0 "a<bcd" (by decide)).1
  rw [h]
  rfl

/-- C6: the scaling letter is appended exactly when not hidden and not an
identity letter, the unit symbol exactly when not hidden and not `None`, each
preceded by a space per its flag; a configured letter space transfers to the
unit when the letter itself is suppressed.  The second conjunct ties the
suffix to the full `eng` output. -/
theorem engSuffix_c6 (cfg : EngFixConfig) (p : Pfx) (u : MUnit) (val : ℚ) :
    (engSuffix cfg p u =
      (if cfg.pfx_hidden = false ∧ p ≠ Pfx.one ∧ p ≠ Pfx.oneButBinary then
        (if cfg.pfx_has_space then " " else "") ++ p.symbol
      else "")
      ++ (if cfg.unit_hidden = false ∧ u ≠ MUnit.none then
        (if cfg.unit_has_space = true ∨ (cfg.pfx_has_space = true ∧
            ¬(cfg.pfx_hidden = false ∧ p ≠ Pfx.one ∧ p ≠ Pfx.oneButBinary)) then " "
         else "") ++ u.symbol
      else "")) ∧
    (cfg.unit = Option.none →
      engFormat cfg (Value.number val u) =
        .ok (engNumeral cfg.width ((engChoosePfx cfg val u).apply val)
          ++ engSuffix cfg (engChoosePfx cfg val u) u)) := by
  constructor
  · simp only [engSuffix]
    cases hph : cfg.pfx_hidden <;> cases hps : cfg.pfx_has_space <;>
      cases huh : cfg.unit_hidden <;> cases hus : cfg.unit_has_space <;>
      by_cases hp1 : p = Pfx.one <;> by_cases hp2 : p = Pfx.oneButBinary <;>
      by_cases hu : u = MUnit.none <;>
      simp_all
  · intro hu
    simp [engFormat, hu]

theorem engSuffix_c6_witness :
    engFormat DEFAULT_NUMBER_FMTR (Value.number 1536 MUnit.bytes) =
      .ok (engNumeral DEFAULT_NUMBER_FMTR.width
            ((engChoosePfx DEFAULT_NUMBER_FMTR 1536 MUnit.bytes).apply 1536)
          ++ engSuffix DEFAULT_NUMBER_FMTR
            (engChoosePfx DEFAULT_NUMBER_FMTR 1536 MUnit.bytes) MUnit.bytes) :=
  (engSuffix_c6 DEFAULT_NUMBER_FMTR
    (engChoosePfx DEFAULT_NUMBER_FMTR 1536 MUnit.bytes) MUnit.bytes 1536).2 rfl

/-- The bar glyph index is always one of the nine table positions. -/
theorem barIdx_lt_nine (x : ℚ) (i : ℕ) : barIdx x i < 9 := by
  have h1 : qclamp (x - i) 0 1 ≤ 1 := min_le_left _ _
  have h2 : qclamp (x - i) 0 1 * 8 ≤ 8 := by nlinarith
  have h3 : ⌊qclamp (x - i) 0 1 * 8⌋ ≤ 8 := by
    calc ⌊qclamp (x - i) 0 1 * 8⌋ ≤ ⌊(8 : ℚ)⌋ := Int.floor_le_floor h2
    _ = 8 := by norm_num
  calc barIdx x i ≤ 8 := by
        simpa [barIdx] using Int.toNat_le_toNat h3
  _ < 9 := by norm_num

/-- The per-cell fill index is antitone in the cell position. -/
theorem barIdx_antitone (x : ℚ) {i j : ℕ} (hij : i ≤ j) : barIdx x j ≤ barIdx x i := by
  have hle : x - (j : ℚ) ≤ x - i := by
    have : (i : ℚ) ≤ j := by exact_mod_cast hij
    linarith
  have hc : qclamp (x - j) 0 1 ≤ qclamp (x - i) 0 1 :=
    min_le_min le_rfl (max_le_max le_rfl hle)
  have hm : qclamp (x - j) 0 1 * 8 ≤ qclamp (x - i) 0 1 * 8 := by nlinarith
  exact Int.toNat_le_toNat (Int.floor_le_floor hm)

/-- C5: the bar formatter clamps `value/max_value` into `[0,1]` and never
errors on a `Number`; it renders exactly `width` cells whose glyph at index
`i` is table entry `floor(clamp(normalized*width - i, 0, 1) * 8)`; the fill
index is non-decreasing as `i` decreases and always one of the 9 glyphs. -/
theorem barFormat_c5 (f : BarFormatter) (val : ℚ) (u : MUnit) :
    ∃ cells : List Char,
      f.format (Value.number val u) = .ok (String.mk cells) ∧
      cells.length = f.width ∧
      (∀ i : ℕ, i < f.width →
        cells[i]? = some (VERTICAL_BAR_CHARS.getD
          (barIdx (qclamp (val / f.max_value) 0 1 * f.width) i) ' ')) ∧
      (∀ i j : ℕ, i ≤ j →
        barIdx (qclamp (val / f.max_value) 0 1 * f.width) j ≤
          barIdx (qclamp (val / f.max_value) 0 1 * f.width) i) ∧
      (∀ i : ℕ, barIdx (qclamp (val / f.max_value) 0 1 * f.width) i < 9) := by
  refine ⟨(List.range f.width).map fun i =>
    VERTICAL_BAR_CHARS.getD (barIdx (qclamp (val / f.max_value) 0 1 * f.width) i) ' ',
    rfl, by simp, fun i hi => ?_, fun i j hij => barIdx_antitone _ hij,
    fun i => barIdx_lt_nine _ i⟩
  simp [List.getElem?_map, List.getElem?_range, hi]

theorem barFormat_c5_witness :
    ∃ cells : List Char,
      BarFormatter.format ⟨5, 100⟩ (Value.number 50 MUnit.none) = .ok (String.mk cells) ∧
      cells.length = 5 ∧
      cells[0]? = some (VERTICAL_BAR_CHARS.getD
        (barIdx (qclamp ((50 : ℚ) / 100) 0 1 * ((5 : ℕ) : ℚ)) 0) ' ') ∧
      barIdx (qclamp ((50 : ℚ) / 100) 0 1 * ((5 : ℕ) : ℚ)) 2 ≤
        barIdx (qclamp ((50 : ℚ) / 100) 0 1 * ((5 : ℕ) : ℚ)) 0 := by
  obtain ⟨cells, h1, h2, h3, h4, _⟩ := barFormat_c5 ⟨5, 100⟩ 50 MUnit.none
  exact ⟨cells, h1, h2, h3 0 (by decide), h4 0 2 (by decide)⟩

/-- The claim's description of the rotating window: a read of `max_width`
consecutive cells of the circular buffer "text plus one separator", starting
at the phase. -/
def rotWindowSpec (text : List Char) (maxw phase : ℕ) : List Char :=
  let buf := text ++ ['|']
  (List.range maxw).map fun j => buf.getD ((phase + j) % buf.length) ' '

theorem strRotChars_length (text : List Char) (maxw step : ℕ)
    (hover : maxw < text.length) (hstep : step ≤ text.length) :
    (strRotChars text maxw step).length = maxw := by
  simp only [strRotChars, List.length_take, List.length_append, List.length_drop,
    List.length_singleton]
  omega

theorem strRotChars_eq_spec (text : List Char) (maxw step : ℕ)
    (hover : maxw < text.length) (hstep : step < text.length + 1) :
    strRotChars text maxw step = rotWindowSpec text maxw step := by
  have hbufLen : (text ++ ['|']).length = text.length + 1 := by simp
  have hw1def : min maxw (text.length + 1 - step) = min maxw (text.length + 1 - step) := rfl
  have hw1len : (((text ++ ['|']).drop step).take (min maxw (text.length + 1 - step))).length
      = min maxw (text.length + 1 - step) := by
    simp only [List.length_take, List.length_drop, hbufLen]
    omega
  apply List.ext_getElem?_iff.mpr
  intro j
  by_cases hj : j < maxw
  · have hRHS : (rotWindowSpec text maxw step)[j]? =
        some ((text ++ ['|']).getD ((step + j) % (text.length + 1)) ' ') := by
      simp only [rotWindowSpec]
      rw [List.getElem?_map, List.getElem?_range hj]
      simp [hbufLen]
    rw [hRHS]
    show (((((text ++ ['|']).drop step).take (min maxw (text.length + 1 - step)))
        ++ text).take maxw)[j]? = _
    rw [List.getElem?_take_of_lt hj]
    by_cases hjw : j < min maxw (text.length + 1 - step)
    · rw [List.getElem?_append_left (by rw [hw1len]; exact hjw)]
      rw [List.getElem?_take_of_lt hjw, List.getElem?_drop]
      have hmod : (step + j) % (text.length + 1) = step + j :=
        Nat.mod_eq_of_lt (by omega)
      rw [hmod]
      have hin : step + j < (text ++ ['|']).length := by rw [hbufLen]; omega
      rw [List.getD_eq_getElem?_getD, List.getElem?_eq_getElem hin]
      rfl
    · push_neg at hjw
      rw [List.getElem?_append_right (by rw [hw1len]; exact hjw), hw1len]
      have hw1 : min maxw (text.length + 1 - step) = text.length + 1 - step := by omega
      have hjn : j - min maxw (text.length + 1 - step) < text.length := by omega
      have hmod : (step + j) % (text.length + 1)
          = j - min maxw (text.length + 1 - step) := by
        have hsplit : step + j = (text.length + 1)
            + (j - min maxw (text.length + 1 - step)) := by omega
        rw [hsplit, Nat.add_mod_left]
        exact Nat.mod_eq_of_lt (by omega)
      rw [hmod]
      have hin : j - min maxw (text.length + 1 - step) < (text ++ ['|']).length := by
        rw [hbufLen]; omega
      rw [List.getD_eq_getElem?_getD, List.getElem?_eq_getElem hin]
      rw [List.getElem_append_left hjn]
      simp only [Option.getD_some]
      exact List.getElem?_eq_getElem hjn
  · push_neg at hj
    have h1 : (strRotChars text maxw step).length = maxw :=
      strRotChars_length text maxw step hover (by omega)
    have h2 : (rotWindowSpec text maxw step).length = maxw := by
      simp [rotWindowSpec]
    rw [List.getElem?_eq_none (by omega), List.getElem?_eq_none (by omega)]

/-- C4: with rotation configured and an overflowing text, the output is the
escape of a window of exactly `max_width` characters read from the circular
buffer "text + separator" (length `len+1`) starting at
`phase = ((now - t) / rot_interval_ms) mod (len+1)`, wrapping to the start
of the text past the buffer end. -/
theorem strFormat_c4 (f : StrFormatter) (now r t : ℕ) (s : String)
    (hr : f.rot_interval_ms = some r) (ht : f.init_time = some t)
    (hover : f.max_width < s.data.length) :
    (strRotChars s.data f.max_width (((now - t) / r) % (s.data.length + 1))).length
        = f.max_width ∧
    strRotChars s.data f.max_width (((now - t) / r) % (s.data.length + 1))
        = rotWindowSpec s.data f.max_width (((now - t) / r) % (s.data.length + 1)) ∧
    f.format now (Value.text s) =
      .ok (collectPangoEscaped (rotWindowSpec s.data f.max_width
        (((now - t) / r) % (s.data.length + 1)))) := by
  have hstep : ((now - t) / r) % (s.data.length + 1) < s.data.length + 1 :=
    Nat.mod_lt _ (by omega)
  have h2 := strRotChars_eq_spec s.data f.max_width _ hover hstep
  refine ⟨strRotChars_length _ _ _ hover (by omega), h2, ?_⟩
  simp only [StrFormatter.format, hr, ht]
  rw [if_pos hover]
  exact congrArg Except.ok (congrArg collectPangoEscaped h2)

theorem strFormat_c4_witness :
    StrFormatter.format ⟨0, 3, false, some 100, some 0⟩ 400 (Value.text "abcde")
      = .ok "e|a" := by
  have h := (strFormat_c4 ⟨0, 3, false, some 100, some 0⟩ 400 100 0 "abcde"
    rfl rfl (by decide)).2.2
  rw [h]
  rfl

/-- The floor logarithm of a rational at least 1 is unchanged by casting
into the reals. -/
theorem intLog10_ratCast (q : ℚ) (hq : 1 ≤ q) :
    Int.log 10 ((q : ℝ)) = Int.log 10 q := by
  rw [Int.log_of_one_le_right _ (by exact_mod_cast hq), Int.log_of_one_le_right _ hq]
  have hfloor : (⌊((q : ℝ))⌋₊ : ℤ) = (⌊q⌋₊ : ℤ) := by
    rw [Int.natCast_floor_eq_floor (by positivity),
      Int.natCast_floor_eq_floor (by linarith), Rat.floor_cast]
  have : ⌊((q : ℝ))⌋₊ = ⌊q⌋₊ := by exact_mod_cast hfloor
  rw [this]

/-- C1: the eng numeral's digit count is
`floor(log10(max(magnitude, 1))) + 1`, plus one when the scaled magnitude is
negative; and with `budget = width - digits`, a budget ≤ 0 renders the
floored whole number, a budget of exactly 1 renders the whole number behind
one space, and a larger budget renders `budget - 1` decimal places. -/
theorem engNumeral_c1 (width : ℕ) (val : ℚ) :
    (engDigits val = ⌊Real.logb 10 ((max val 1 : ℚ) : ℝ)⌋ + 1
      + (if val < 0 then 1 else 0)) ∧
    ((width : ℤ) - engDigits val ≤ 0 → engNumeral width val = toString ⌊val⌋) ∧
    ((width : ℤ) - engDigits val = 1 → engNumeral width val = " " ++ toString ⌊val⌋) ∧
    (2 ≤ (width : ℤ) - engDigits val →
      engNumeral width val = renderFixed ((width : ℤ) - engDigits val - 1).toNat val) := by
  refine ⟨?_, ?_, ?_, ?_⟩
  · have h1 : (1 : ℚ) ≤ max val 1 := le_max_right _ _
    have hcast : ⌊Real.logb 10 ((max val 1 : ℚ) : ℝ)⌋ = Int.log 10 (max val 1) := by
      rw [show (10 : ℝ) = ((10 : ℕ) : ℝ) by norm_num,
        Real.floor_logb_natCast (by positivity), intLog10_ratCast _ h1]
    rw [hcast, engDigits]
    by_cases hneg : val < 0 <;> simp [hneg]
  · intro hb
    simp only [engNumeral]
    rw [if_pos hb]
  · intro hb
    simp only [engNumeral]
    rw [if_neg (by omega), if_pos hb]
  · intro hb
    simp only [engNumeral]
    rw [if_neg (by omega), if_neg (by omega)]

theorem engNumeral_c1_witness :
    2 ≤ (4 : ℤ) - engDigits (5 / 2) ∧
    engNumeral 4 (5 / 2) = renderFixed ((4 : ℤ) - engDigits (5 / 2) - 1).toNat (5 / 2) := by
  have hd : engDigits (5 / 2 : ℚ) = 1 := by
    simp only [engDigits]
    rw [if_neg (by norm_num), max_eq_left (by norm_num : (1 : ℚ) ≤ 5 / 2),
      Int.log_of_one_le_right _ (by norm_num : (1 : ℚ) ≤ 5 / 2),
      show ⌊(5 / 2 : ℚ)⌋₊ = 2 from (Nat.floor_eq_iff (by norm_num)).mpr (by norm_num),
      Nat.log_of_lt (by norm_num)]
    rfl
  exact ⟨by rw [hd]; norm_num,
    (engNumeral_c1 4 (5 / 2)).2.2.2 (by rw [hd]; norm_num)⟩

/-- Spec-side validity of one `str` argument: recognized key and parsable
value per that key's target type. -/
def strArgOk (a : Arg) : Bool :=
  if a.key = "min_width" ∨ a.key = "min_w" then (parseUsize a.val).isSome
  else if a.key = "max_width" ∨ a.key = "max_w" then (parseUsize a.val).isSome
  else if a.key = "pango" then (parseBool a.val).isSome
  else if a.key = "rot_interval" then (parseF64Q a.val).isSome
  else false

/-- Spec-side effective (last-wins) `str` configuration of an argument
list, ignoring unparsable values. -/
def strEff : List Arg → StrRaw → StrRaw
  | [], c => c
  | a :: rest, c =>
    if a.key = "min_width" ∨ a.key = "min_w" then
      match parseUsize a.val with
      | some n => strEff rest { c with min_width := n }
      | Option.none => strEff rest c
    else if a.key = "max_width" ∨ a.key = "max_w" then
      match parseUsize a.val with
      | some n => strEff rest { c with max_width := n }
      | Option.none => strEff rest c
    else if a.key = "pango" then
      match parseBool a.val with
      | some b => strEff rest { c with pango := b }
      | Option.none => strEff rest c
    else if a.key = "rot_interval" then
      match parseF64Q a.val with
      | some q => strEff rest { c with rot_interval := some q }
      | Option.none => strEff rest c
    else strEff rest c

theorem strLoop_ok (args : List Arg) : ∀ c, args.all strArgOk = true →
    strLoop args c = .ok (strEff args c) := by
  induction args with
  | nil => intro c _; rfl
  | cons a rest ih =>
    intro c hall
    rw [List.all_cons, Bool.and_eq_true] at hall
    obtain ⟨ha, hrest⟩ := hall
    simp only [strArgOk] at ha
    simp only [strLoop, strEff]
    split_ifs at ha ⊢ <;>
      first
      | (obtain ⟨v, hv⟩ := Option.isSome_iff_exists.mp ha
         rw [hv]
         exact ih _ hrest)
      | exact absurd ha (by simp)

theorem strLoop_err (args : List Arg) : ∀ c, args.all strArgOk = false →
    ∃ m, strLoop args c = .error (.config m) := by
  induction args with
  | nil => intro c h; simp at h
  | cons a rest ih =>
    intro c hall
    rw [List.all_cons] at hall
    simp only [strLoop]
    by_cases ha : strArgOk a = true
    · have hrest : rest.all strArgOk = false := by
        cases hx : rest.all strArgOk
        · rfl
        · rw [ha, hx] at hall; simp at hall
      simp only [strArgOk] at ha
      split_ifs at ha ⊢ <;>
        first
        | (obtain ⟨v, hv⟩ := Option.isSome_iff_exists.mp ha
           rw [hv]
           exact ih _ hrest)
        | exact absurd ha (by simp)
    · have ha' : strArgOk a = false := by
        cases hx : strArgOk a
        · rfl
        · exact absurd hx ha
      simp only [strArgOk] at ha'
      split_ifs at ha' ⊢ <;>
        first
        | (have hnone : parseUsize a.val = Option.none :=
             Option.not_isSome_iff_eq_none.mp (by simp [ha'])
           rw [hnone]
           exact ⟨_, rfl⟩)
        | (have hnone : parseBool a.val = Option.none :=
             Option.not_isSome_iff_eq_none.mp (by simp [ha'])
           rw [hnone]
           exact ⟨_, rfl⟩)
        | (have hnone : parseF64Q a.val = Option.none :=
             Option.not_isSome_iff_eq_none.mp (by simp [ha'])
           rw [hnone]
           exact ⟨_, rfl⟩)
        | exact ⟨_, rfl⟩

theorem strLoop_err_config (args : List Arg) : ∀ c e,
    strLoop args c = .error e → e.isConfig = true := by
  induction args with
  | nil => intro c e h; exact absurd h (by simp [strLoop])
  | cons a rest ih =>
    intro c e h
    simp only [strLoop] at h
    split_ifs at h <;>
      first
      | (split at h
         · exact ih _ _ h
         · injection h with he; rw [← he]; rfl)
      | (injection h with he; rw [← he]; rfl)

/-- Spec-side validity of one `bar` argument. -/
def barArgOk (a : Arg) : Bool :=
  if a.key = "width" ∨ a.key = "w" then (parseUsize a.val).isSome
  else if a.key = "max_value" then (parseF64Q a.val).isSome
  else false

theorem barLoop_ok (args : List Arg) : ∀ c, args.all barArgOk = true →
    ∃ c2, barLoop args c = .ok c2 := by
  induction args with
  | nil => intro c _; exact ⟨c, rfl⟩
  | cons a rest ih =>
    intro c hall
    rw [List.all_cons, Bool.and_eq_true] at hall
    obtain ⟨ha, hrest⟩ := hall
    simp only [barArgOk] at ha
    simp only [barLoop]
    split_ifs at ha ⊢ <;>
      first
      | (obtain ⟨v, hv⟩ := Option.isSome_iff_exists.mp ha
         rw [hv]
         exact ih _ hrest)
      | exact absurd ha (by simp)

theorem barLoop_err (args : List Arg) : ∀ c, args.all barArgOk = false →
    ∃ m, barLoop args c = .error (.config m) := by
  induction args with
  | nil => intro c h; simp at h
  | cons a rest ih =>
    intro c hall
    rw [List.all_cons] at hall
    simp only [barLoop]
    by_cases ha : barArgOk a = true
    · have hrest : rest.all barArgOk = false := by
        cases hx : rest.all barArgOk
        · rfl
        · rw [ha, hx] at hall; simp at hall
      simp only [barArgOk] at ha
      split_ifs at ha ⊢ <;>
        first
        | (obtain ⟨v, hv⟩ := Option.isSome_iff_exists.mp ha
           rw [hv]
           exact ih _ hrest)
        | exact absurd ha (by simp)
    · have ha' : barArgOk a = false := by
        cases hx : barArgOk a
        · rfl
        · exact absurd hx ha
      simp only [barArgOk] at ha'
      split_ifs at ha' ⊢ <;>
        first
        | (have hnone : parseUsize a.val = Option.none :=
             Option.not_isSome_iff_eq_none.mp (by simp [ha'])
           rw [hnone]
           exact ⟨_, rfl⟩)
        | (have hnone : parseF64Q a.val = Option.none :=
             Option.not_isSome_iff_eq_none.mp (by simp [ha'])
           rw [hnone]
           exact ⟨_, rfl⟩)
        | exact ⟨_, rfl⟩

theorem barLoop_err_config (args : List Arg) : ∀ c e,
    barLoop args c = .error e → e.isConfig = true := by
  induction args with
  | nil => intro c e h; exact absurd h (by simp [barLoop])
  | cons a rest ih =>
    intro c e h
    simp only [barLoop] at h
    split_ifs at h <;>
      first
      | (split at h
         · exact ih _ _ h
         · injection h with he; rw [← he]; rfl)
      | (injection h with he; rw [← he]; rfl)

/-- Spec-side validity of one `eng`/`fix` argument. -/
def engFixArgOk (a : Arg) : Bool :=
  if a.key = "width" ∨ a.key = "w" then (parseUsize a.val).isSome
  else if a.key = "unit" ∨ a.key = "u" then (MUnit.parse a.val).isSome
  else if a.key = "hide_unit" then (parseBool a.val).isSome
  else if a.key = "unit_space" then (parseBool a.val).isSome
  else if a.key = "prefix" ∨ a.key = "p" then (Pfx.parse a.val).isSome
  else if a.key = "hide_prefix" then (parseBool a.val).isSome
  else if a.key = "prefix_space" then (parseBool a.val).isSome
  else if a.key = "force_prefix" then (parseBool a.val).isSome
  else false

set_option maxHeartbeats 2000000 in
theorem engFixLoop_ok (args : List Arg) : ∀ c, args.all engFixArgOk = true →
    ∃ c2, engFixLoop args c = .ok c2 := by
  induction args with
  | nil => intro c _; exact ⟨c, rfl⟩
  | cons a rest ih =>
    intro c hall
    rw [List.all_cons, Bool.and_eq_true] at hall
    obtain ⟨ha, hrest⟩ := hall
    simp only [engFixArgOk] at ha
    simp only [engFixLoop]
    split_ifs at ha ⊢ <;>
      first
      | (obtain ⟨v, hv⟩ := Option.isSome_iff_exists.mp ha
         rw [hv]
         exact ih _ hrest)
      | exact absurd ha (by simp)

set_option maxHeartbeats 2000000 in
theorem engFixLoop_err (args : List Arg) : ∀ c, args.all engFixArgOk = false →
    ∃ m, engFixLoop args c = .error (.config m) := by
  induction args with
  | nil => intro c h; simp at h
  | cons a rest ih =>
    intro c hall
    rw [List.all_cons] at hall
    simp only [engFixLoop]
    by_cases ha : engFixArgOk a = true
    · have hrest : rest.all engFixArgOk = false := by
        cases hx : rest.all engFixArgOk
        · rfl
        · rw [ha, hx] at hall; simp at hall
      simp only [engFixArgOk] at ha
      split_ifs at ha ⊢ <;>
        first
        | (obtain ⟨v, hv⟩ := Option.isSome_iff_exists.mp ha
           rw [hv]
           exact ih _ hrest)
        | exact absurd ha (by simp)
    · have ha' : engFixArgOk a = false := by
        cases hx : engFixArgOk a
        · rfl
        · exact absurd hx ha
      simp only [engFixArgOk] at ha'
      split_ifs at ha' ⊢ <;>
        first
        | (have hnone : parseUsize a.val = Option.none :=
             Option.not_isSome_iff_eq_none.mp (by simp [ha'])
           rw [hnone]
           exact ⟨_, rfl⟩)
        | (have hnone : MUnit.parse a.val = Option.none :=
             Option.not_isSome_iff_eq_none.mp (by simp [ha'])
           rw [hnone]
           exact ⟨_, rfl⟩)
        | (have hnone : Pfx.parse a.val = Option.none :=
             Option.not_isSome_iff_eq_none.mp (by simp [ha'])
           rw [hnone]
           exact ⟨_, rfl⟩)
        | (have hnone : parseBool a.val = Option.none :=
             Option.not_isSome_iff_eq_none.mp (by simp [ha'])
           rw [hnone]
           exact ⟨_, rfl⟩)
        | exact ⟨_, rfl⟩

set_option maxHeartbeats 2000000 in
theorem engFixLoop_err_config (args : List Arg) : ∀ c e,
    engFixLoop args c = .error e → e.isConfig = true := by
  induction args with
  | nil => intro c e h; exact absurd h (by simp [engFixLoop])
  | cons a rest ih =>
    intro c e h
    simp only [engFixLoop] at h
    split_ifs at h <;>
      first
      | (split at h
         · exact ih _ _ h
         · injection h with he; rw [← he]; rfl)
      | (injection h with he; rw [← he]; rfl)

/-- Spec-side well-formedness of a `str` argument list: every key recognized
with a parsable value, and the effective (last-wins) configuration satisfies
both cross-field invariants. -/
def strWellFormed (args : List Arg) : Bool :=
  args.all strArgOk &&
    (decide ((strEff args strRaw0).min_width ≤ (strEff args strRaw0).max_width) &&
      (match (strEff args strRaw0).rot_interval with
       | some q => decide (¬(q < 1 / 10))
       | Option.none => true))

/-- Spec-side well-formedness of a `bar` argument list (no cross-field
invariants). -/
def barWellFormed (args : List Arg) : Bool := args.all barArgOk

/-- Spec-side well-formedness of an `eng`/`fix` argument list (no
cross-field invariants). -/
def engFixWellFormed (args : List Arg) : Bool := args.all engFixArgOk

/-- Spec-side success condition of `new_formatter` per formatter name. -/
def wellFormedFor (name : String) (args : List Arg) : Bool :=
  if name = "str" then strWellFormed args
  else if name = "bar" then barWellFormed args
  else if name = "eng" then engFixWellFormed args
  else if name = "fix" then engFixWellFormed args
  else false

theorem exceptMap_isOk_iff {α β : Type} (g : α → β) (x : Except Err α) :
    (∃ f, x.map g = .ok f) ↔ ∃ c, x = .ok c := by
  cases x <;> simp [Except.map]

theorem exceptMap_err {α β : Type} {g : α → β} {x : Except Err α} {e : Err}
    (h : x.map g = .error e) : x = .error e := by
  cases x <;> simp_all [Except.map]

theorem strFromArgs_isOk_iff (now : ℕ) (args : List Arg) :
    (∃ f, strFromArgs now args = .ok f) ↔ strWellFormed args = true := by
  unfold strFromArgs strWellFormed
  cases hall : args.all strArgOk
  · obtain ⟨m, hm⟩ := strLoop_err args strRaw0 hall
    rw [hm]
    simp
  · rw [strLoop_ok args strRaw0 hall]
    simp only [Bool.true_and]
    by_cases h1 : (strEff args strRaw0).max_width < (strEff args strRaw0).min_width
    · rw [if_pos h1]
      simp [not_le.mpr h1]
    · rw [if_neg h1]
      have hle : (strEff args strRaw0).min_width ≤ (strEff args strRaw0).max_width :=
        not_lt.mp h1
      cases hrot : (strEff args strRaw0).rot_interval with
      | none => simp [hle]
      | some q =>
        rw [show (match some q with
            | some q => decide ¬(q < 1 / 10)
            | Option.none => true) = decide ¬(q < 1 / 10) from rfl,
          Bool.and_eq_true, decide_eq_true_iff, decide_eq_true_iff]
        split
        rename_i q2 heq
        injection heq with heq2
        subst heq2
        by_cases hq : q < 1 / 10
        · rw [if_pos hq]
          constructor
          · rintro ⟨f, hf⟩
            exact absurd hf (by simp)
          · rintro ⟨-, hnot⟩
            exact absurd hq hnot
        · rw [if_neg hq]
          exact ⟨fun _ => ⟨hle, hq⟩, fun _ => ⟨_, rfl⟩⟩
        rename_i hnone
        exact absurd hnone (by simp)

theorem strFromArgs_err_config (now : ℕ) (args : List Arg) :
    ∀ e, strFromArgs now args = .error e → e.isConfig = true := by
  intro e h
  unfold strFromArgs at h
  split at h
  · rename_i e' heq
    injection h with h2
    rw [← h2]
    exact strLoop_err_config args strRaw0 e' heq
  · split_ifs at h
    · injection h with h2; rw [← h2]; rfl
    · split at h
      all_goals
        first
          | (split_ifs at h <;>
              first
                | (injection h with h2; rw [← h2]; rfl)
                | exact absurd h (by simp))
          | exact absurd h (by simp)

theorem barFromArgs_isOk_iff (args : List Arg) :
    (∃ f, barFromArgs args = .ok f) ↔ args.all barArgOk = true := by
  unfold barFromArgs
  cases hall : args.all barArgOk
  · obtain ⟨m, hm⟩ := barLoop_err args ⟨DEFAULT_BAR_WIDTH, DEFAULT_BAR_MAX_VAL⟩ hall
    rw [hm]
    simp [Except.map]
  · obtain ⟨c2, hc⟩ := barLoop_ok args ⟨DEFAULT_BAR_WIDTH, DEFAULT_BAR_MAX_VAL⟩ hall
    rw [hc]
    simp [Except.map]

theorem barFromArgs_err_config (args : List Arg) :
    ∀ e, barFromArgs args = .error e → e.isConfig = true := by
  intro e h
  exact barLoop_err_config args _ e (exceptMap_err h)

theorem engFixFromArgs_isOk_iff (args : List Arg) :
    (∃ c, engFixFromArgs args = .ok c) ↔ args.all engFixArgOk = true := by
  unfold engFixFromArgs
  cases hall : args.all engFixArgOk
  · obtain ⟨m, hm⟩ := engFixLoop_err args DEFAULT_NUMBER_FMTR hall
    rw [hm]
    simp
  · obtain ⟨c2, hc⟩ := engFixLoop_ok args DEFAULT_NUMBER_FMTR hall
    rw [hc]
    simp

theorem engFixFromArgs_err_config (args : List Arg) :
    ∀ e, engFixFromArgs args = .error e → e.isConfig = true := by
  intro e h
  exact engFixLoop_err_config args DEFAULT_NUMBER_FMTR e h

/-- C7: `new_formatter` succeeds exactly on a known name ("str"/"bar"/
"eng"/"fix") with every key recognized, every value parsable, and the
cross-field invariants satisfied; every failure is a `ConfigError`; and
"flag" is not constructible by name. -/
theorem new_formatter_c7 (now : ℕ) (name : String) (args : List Arg) :
    ((∃ f, new_formatter now name args = .ok f) ↔ wellFormedFor name args = true) ∧
    (∀ e, new_formatter now name args = .error e → e.isConfig = true) ∧
    (name = "flag" → ∀ f, new_formatter now name args ≠ .ok f) := by
  refine ⟨?_, ?_, ?_⟩
  · unfold new_formatter wellFormedFor
    by_cases h1 : name = "str"
    · rw [if_pos h1, if_pos h1, exceptMap_isOk_iff]
      exact strFromArgs_isOk_iff now args
    · rw [if_neg h1, if_neg h1]
      by_cases h2 : name = "bar"
      · rw [if_pos h2, if_pos h2, exceptMap_isOk_iff]
        exact barFromArgs_isOk_iff args
      · rw [if_neg h2, if_neg h2]
        by_cases h3 : name = "eng"
        · rw [if_pos h3, if_pos h3, exceptMap_isOk_iff]
          exact engFixFromArgs_isOk_iff args
        · rw [if_neg h3, if_neg h3]
          by_cases h4 : name = "fix"
          · rw [if_pos h4, if_pos h4, exceptMap_isOk_iff]
            exact engFixFromArgs_isOk_iff args
          · rw [if_neg h4, if_neg h4]
            simp
  · intro e h
    unfold new_formatter at h
    split_ifs at h
    · exact strFromArgs_err_config now args e (exceptMap_err h)
    · exact barFromArgs_err_config args e (exceptMap_err h)
    · exact engFixFromArgs_err_config args e (exceptMap_err h)
    · exact engFixFromArgs_err_config args e (exceptMap_err h)
    · injection h with h2; rw [← h2]; rfl
  · intro hflag f
    subst hflag
    unfold new_formatter
    rw [if_neg (by decide), if_neg (by decide), if_neg (by decide), if_neg (by decide)]
    exact fun h => Except.noConfusion h

theorem new_formatter_c7_witness :
    (∃ f, new_formatter 0 "str" [] = .ok f) ∧
    ¬∃ f, new_formatter 0 "str" [Arg.mk "min_width" "5", Arg.mk "max_width" "2"] = .ok f :=
  ⟨(new_formatter_c7 0 "str" []).1.mpr (by decide),
   fun h => by
     have := (new_formatter_c7 0 "str" [Arg.mk "min_width" "5", Arg.mk "max_width" "2"]).1.mp h
     revert this
     decide⟩
